import Mathlib

/-!
# Verification of the AegisProxy/aegis-sdk redaction mapper

A shallow embedding of `src/aegis_sdk/aegis_protector.py` (class
`AegisProtector`) in Lean 4, together with theorems settling the frozen
claims about it.

The Python class keeps two dictionaries, `_mapping : text → placeholder`
and `_reverse_mapping : placeholder → text`.  We model each dictionary as
an association list with no duplicate keys, insertion-ordered, exactly as
CPython dicts behave; byte strings are lists of naturals below 256 and
32-bit machine words are naturals reduced modulo `2 ^ 32`.

`redact` hashes the text with SHA-256 and keeps the first 8 hex characters
of the digest, so the embedding includes a full executable SHA-256
(FIPS 180-4) over the UTF-8 encoding of the text, mirroring
`hashlib.sha256(text.encode()).hexdigest()[:8]`.
-/

set_option maxRecDepth 100000

namespace Aegis

/-! ## SHA-256 (FIPS 180-4), executable over byte lists -/

/-- The 32-bit truncation, the implicit wrap-around of SHA-256 word arithmetic. -/
def w32 (n : Nat) : Nat := n % 4294967296

/-- Right rotation of a 32-bit word by `n` places. -/
def rotr (n x : Nat) : Nat := w32 ((x >>> n) ||| (x <<< (32 - n)))

/-- Bitwise complement of a 32-bit word. -/
def not32 (x : Nat) : Nat := 4294967295 ^^^ x

/-- The SHA-256 round constants `K` (first 32 bits of the fractional parts of
the cube roots of the first 64 primes), written in decimal. -/
def Kconst : List Nat :=
  [1116352408, 1899447441, 3049323471, 3921009573, 961987163, 1508970993,
   2453635748, 2870763221, 3624381080, 310598401, 607225278, 1426881987,
   1925078388, 2162078206, 2614888103, 3248222580, 3835390401, 4022224774,
   264347078, 604807628, 770255983, 1249150122, 1555081692, 1996064986,
   2554220882, 2821834349, 2952996808, 3210313671, 3336571891, 3584528711,
   113926993, 338241895, 666307205, 773529912, 1294757372, 1396182291,
   1695183700, 1986661051, 2177026350, 2456956037, 2730485921, 2820302411,
   3259730800, 3345764771, 3516065817, 3600352804, 4094571909, 275423344,
   430227734, 506948616, 659060556, 883997877, 958139571, 1322822218,
   1537002063, 1747873779, 1955562222, 2024104815, 2227730452, 2361852424,
   2428436474, 2756734187, 3204031479, 3329325298]

/-- The SHA-256 initial hash value `H⁽⁰⁾` (fractional parts of the square
roots of the first 8 primes), written in decimal. -/
def Hinit : List Nat :=
  [1779033703, 3144134277, 1013904242, 2773480762,
   1359893119, 2600822924, 528734635, 1541459225]

/-- The 8-byte big-endian encoding of `n` (the message-length trailer). -/
def be64 (n : Nat) : List Nat :=
  [(n >>> 56) % 256, (n >>> 48) % 256, (n >>> 40) % 256, (n >>> 32) % 256,
   (n >>> 24) % 256, (n >>> 16) % 256, (n >>> 8) % 256, n % 256]

/-- SHA-256 message padding: append `0x80`, zero bytes up to 56 mod 64, then
the bit length of the message, big-endian on 8 bytes. -/
def pad (msg : List Nat) : List Nat :=
  msg ++ [0x80] ++ List.replicate ((119 - msg.length % 64) % 64) 0 ++ be64 (8 * msg.length)

/-- Group a byte list into 32-bit big-endian words. -/
def toWords : List Nat → List Nat
  | a :: b :: c :: d :: rest => (((a * 256 + b) * 256 + c) * 256 + d) :: toWords rest
  | _ => []

/-- The small sigma functions of the message schedule. -/
def ssig0 (x : Nat) : Nat := rotr 7 x ^^^ rotr 18 x ^^^ (x >>> 3)

def ssig1 (x : Nat) : Nat := rotr 17 x ^^^ rotr 19 x ^^^ (x >>> 10)

/-- The big sigma functions of the compression loop. -/
def bsig0 (x : Nat) : Nat := rotr 2 x ^^^ rotr 13 x ^^^ rotr 22 x

def bsig1 (x : Nat) : Nat := rotr 6 x ^^^ rotr 11 x ^^^ rotr 25 x

/-- Extend the 16 words of one block to the 64-word message schedule `W`. -/
def schedule (block : List Nat) : List Nat :=
  (List.range 48).foldl
    (fun w _ =>
      let n := w.length
      w ++ [w32 (w.getD (n - 16) 0 + ssig0 (w.getD (n - 15) 0) +
                 w.getD (n - 7) 0 + ssig1 (w.getD (n - 2) 0))])
    block

/-- One round of the SHA-256 compression function on the working variables
`[a, b, c, d, e, f, g, h]`. -/
def round (kw : Nat × Nat) (st : List Nat) : List Nat :=
  match st with
  | [a, b, c, d, e, f, g, h] =>
    let t1 := w32 (h + bsig1 e + ((e &&& f) ^^^ (not32 e &&& g)) + kw.1 + kw.2)
    let t2 := w32 (bsig0 a + ((a &&& b) ^^^ (a &&& c) ^^^ (b &&& c)))
    [w32 (t1 + t2), a, b, c, w32 (d + t1), e, f, g]
  | other => other

/-- Process one 16-word block: run the 64 rounds and add the result into the
running hash value. -/
def compress (h : List Nat) (block : List Nat) : List Nat :=
  let st := (Kconst.zip (schedule block)).foldl (fun st kw => round kw st) h
  (h.zip st).map (fun p => w32 (p.1 + p.2))

/-- Fold the compression function over the padded message, one 16-word
(64-byte) block at a time. -/
def processWords : List Nat → List Nat → List Nat
  | w0 :: w1 :: w2 :: w3 :: w4 :: w5 :: w6 :: w7 ::
    w8 :: w9 :: w10 :: w11 :: w12 :: w13 :: w14 :: w15 :: rest, h =>
      processWords rest
        (compress h [w0, w1, w2, w3, w4, w5, w6, w7, w8, w9, w10, w11, w12, w13, w14, w15])
  | _, h => h

/-- SHA-256 of a byte list, as the list of the 8 words of the digest. -/
def sha256 (msg : List Nat) : List Nat :=
  processWords (toWords (pad msg)) Hinit

/-- Lowercase hexadecimal digit, as produced by Python `hexdigest`. -/
def hexDigit (n : Nat) : Char :=
  if n < 10 then Char.ofNat (48 + n) else Char.ofNat (87 + n)

/-- The 8 lowercase hex characters of one 32-bit word, most significant first. -/
def wordHex (w : Nat) : List Char :=
  [hexDigit ((w >>> 28) % 16), hexDigit ((w >>> 24) % 16), hexDigit ((w >>> 20) % 16),
   hexDigit ((w >>> 16) % 16), hexDigit ((w >>> 12) % 16), hexDigit ((w >>> 8) % 16),
   hexDigit ((w >>> 4) % 16), hexDigit (w % 16)]

/-- Python `hashlib.sha256(msg).hexdigest()`: the 64-character lowercase hex digest. -/
def hexdigest (msg : List Nat) : String :=
  String.mk ((sha256 msg).flatMap wordHex)

/-- UTF-8 encoding of one character (RFC 3629), mirroring Python
`str.encode()` which defaults to UTF-8. -/
def utf8Char (c : Char) : List Nat :=
  let n := c.toNat
  if n < 0x80 then [n]
  else if n < 0x800 then [0xc0 ||| (n >>> 6), 0x80 ||| (n &&& 0x3f)]
  else if n < 0x10000 then
    [0xe0 ||| (n >>> 12), 0x80 ||| ((n >>> 6) &&& 0x3f), 0x80 ||| (n &&& 0x3f)]
  else
    [0xf0 ||| (n >>> 18), 0x80 ||| ((n >>> 12) &&& 0x3f),
     0x80 ||| ((n >>> 6) &&& 0x3f), 0x80 ||| (n &&& 0x3f)]

/-- Python `text.encode()`: the UTF-8 bytes of a string. -/
def utf8Encode (s : String) : List Nat :=
  s.data.flatMap utf8Char

/-- Python string slicing `s[:n]`: the first `n` characters. -/
def strTake (n : Nat) (s : String) : String :=
  String.mk (s.data.take n)

/-- Python `str.upper()` on one character (ASCII range; `upper` is the
identity on the ASCII non-letters appearing in category labels). -/
def charUpper (c : Char) : Char :=
  if 97 ≤ c.toNat ∧ c.toNat ≤ 122 then Char.ofNat (c.toNat - 32) else c

/-- Python `entity_type.upper()`. -/
def strUpper (s : String) : String :=
  String.mk (s.data.map charUpper)

/-- The expression `hashlib.sha256(text.encode()).hexdigest()[:8]`, the digest prefix used in
placeholders (`text_hash` in the source). -/
def textHash (text : String) : String :=
  strTake 8 (hexdigest (utf8Encode text))

/-! ## The `AegisProtector` class

Python dictionaries are modelled as insertion-ordered association lists
with pairwise-distinct keys (CPython semantics); lookup scans for the key,
assignment updates an existing entry in place and otherwise appends. -/

deriving instance DecidableEq for Except

/-- A Python dict over strings: an association list. -/
abbrev Dict := List (String × String)

/-- Dictionary read `d[k]` (with `k in d` as the `isSome` test): the value at key `k`, if present. -/
def dget (d : Dict) (k : String) : Option String :=
  match d with
  | [] => none
  | (k', v) :: rest => if k' = k then some v else dget rest k

/-- Dictionary assignment `d[k] = v`: update in place when `k` is present, append otherwise
(CPython dict assignment keeps insertion order). -/
def dset (d : Dict) (k v : String) : Dict :=
  match d with
  | [] => [(k, v)]
  | (k', v') :: rest => if k' = k then (k, v) :: rest else (k', v') :: dset rest k v

/-- The state of an `AegisProtector` instance: the forward dict `_mapping`
(text → placeholder) and the reverse dict `_reverse_mapping`
(placeholder → text). -/
structure AegisProtector where
  mapping : Dict
  reverse_mapping : Dict
deriving DecidableEq, Repr

/-- Constructor `AegisProtector.__init__`: both dictionaries start empty. -/
def AegisProtector.mk0 : AegisProtector := ⟨[], []⟩

/-- Method `AegisProtector.redact(text, entity_type=None)`.  Returns the placeholder
together with the post-state of the (mutated) instance.  `if entity_type:`
is Python truthiness on `Optional[str]`: `None` and `""` are falsy. -/
def AegisProtector.redact (s : AegisProtector) (text : String) (entity_type : Option String) :
    String × AegisProtector :=
  match dget s.mapping text with
  | some p => (p, s)
  | none =>
    let text_hash := textHash text
    let placeholder :=
      match entity_type with
      | some et =>
        if et = "" then "[REDACTED_" ++ text_hash ++ "]"
        else "[REDACTED_" ++ strUpper et ++ "_" ++ text_hash ++ "]"
      | none => "[REDACTED_" ++ text_hash ++ "]"
    (placeholder,
     { mapping := dset s.mapping text placeholder,
       reverse_mapping := dset s.reverse_mapping placeholder text })

/-- Method `AegisProtector.unredact(placeholder)`: the original text, or a
`ValueError` whose message names the placeholder.  The method only reads
the instance; the returned state records that `self` is unchanged. -/
def AegisProtector.unredact (s : AegisProtector) (placeholder : String) :
    Except String String × AegisProtector :=
  match dget s.reverse_mapping placeholder with
  | none => (Except.error ("Placeholder '" ++ placeholder ++ "' not found in mapping"), s)
  | some text => (Except.ok text, s)

/-- Method `AegisProtector.validate_integrity()`: equal sizes, every forward pair
mirrored in the reverse dict, every reverse pair mirrored in the forward
dict.  The `&&` short-circuits mirror the early `return False`s. -/
def AegisProtector.validate_integrity (s : AegisProtector) : Bool :=
  (s.mapping.length == s.reverse_mapping.length) &&
  (s.mapping.all fun tp => dget s.reverse_mapping tp.2 == some tp.1) &&
  (s.reverse_mapping.all fun pt => dget s.mapping pt.2 == some pt.1)

/-- Run a sequence of `redact` calls (text, category pairs) left to right,
keeping only the final state. -/
def runCalls (s : AegisProtector) : List (String × Option String) → AegisProtector
  | [] => s
  | (t, c) :: rest => runCalls (s.redact t c).2 rest

/-- Call `redact` with the same arguments `n` times; the list of the `n`
returned placeholders, together with the final state. -/
def redactN (s : AegisProtector) (text : String) (entity_type : Option String) :
    Nat → List String × AegisProtector
  | 0 => ([], s)
  | n + 1 =>
    let r := s.redact text entity_type
    let rest := redactN r.2 text entity_type n
    (r.1 :: rest.1, rest.2)

/-- The placeholder format formula stated in the spec (§6), as a definition of
its own so that `redact` can be compared against it:
`"[REDACTED_" + (UPPERCASE(category) + "_" if category given else "") +
first-8-hex-chars(SHA-256(text)) + "]"`, where a category counts as given
when it is present and non-empty (Python truthiness, the reading fixed by
claim C9). -/
def specPlaceholderFormat (text : String) (category : Option String) : String :=
  "[REDACTED_" ++
    (match category with
     | some c => if c = "" then "" else strUpper c ++ "_"
     | none => "") ++
    textHash text ++ "]"

/-- Structural invariant maintained by `redact` even across placeholder
collisions: every reverse entry points back to a forward entry, and every
forward placeholder has some reverse entry. -/
def Inv (s : AegisProtector) : Prop :=
  (∀ p t, dget s.reverse_mapping p = some t → dget s.mapping t = some p) ∧
  (∀ t p, dget s.mapping t = some p → (dget s.reverse_mapping p).isSome = true)

/-- Collision-free well-formedness: the reverse dict is the pairwise swap of
the forward dict, whose keys are pairwise distinct. -/
def Good (s : AegisProtector) : Prop :=
  s.reverse_mapping = s.mapping.map (fun e => (e.2, e.1)) ∧
  (s.mapping.map Prod.fst).Nodup

-- FIPS 180-4 / NIST test vectors and the digests of the concrete strings the
-- spec mentions, checking the embedding of the hash against `hashlib`.
example : hexdigest [] = "e3b0c44298fc1c149afbf4c8996fb92427ae41e4649b934ca495991b7852b855" := by
  decide

example : hexdigest (utf8Encode ("abc")) =
    "ba7816bf8f01cfea414140de5dae2223b00361a396177a9cb410ff61f20015ad" := by
  decide

example : textHash ("John Doe") = "6cea57c2" := by decide

-- The spec's concrete scenario: `redact("John Doe")`, repeated, and inverted.
example :
    (AegisProtector.mk0.redact ("John Doe") none).1 = "[REDACTED_6cea57c2]" := by decide

example :
    ((AegisProtector.mk0.redact ("John Doe") none).2.redact ("John Doe") none).1 =
      "[REDACTED_6cea57c2]" := by decide

example :
    ((AegisProtector.mk0.redact ("John Doe") none).2.unredact ("[REDACTED_6cea57c2]")).1 =
      Except.ok ("John Doe") := by decide

-- Category formatting scenario from the spec.
example :
    (AegisProtector.mk0.redact ("x") (some ("email"))).1 = "[REDACTED_EMAIL_2d711642]" := by decide

-- The 32-bit truncation of the digest admits collisions: "v58213" and
-- "v67279" share the digest prefix cdffd75c, hence the same placeholder.
example : textHash ("v58213") = "cdffd75c" := by decide

example : textHash ("v67279") = "cdffd75c" := by decide

/-! ## Dictionary lemmas -/

theorem dget_dset_self (d : Dict) (k v : String) : dget (dset d k v) k = some v := by
  induction d with
  | nil => simp [dget, dset]
  | cons e rest ih =>
    obtain ⟨k', v'⟩ := e
    by_cases h : k' = k <;> simp [dget, dset, h, ih]

theorem dget_dset_ne (d : Dict) {k k' : String} (v : String) (h : k' ≠ k) :
    dget (dset d k v) k' = dget d k' := by
  have hne : k ≠ k' := Ne.symm h
  induction d with
  | nil => simp [dget, dset, hne]
  | cons e rest ih =>
    obtain ⟨k'', v''⟩ := e
    by_cases h2 : k'' = k
    · subst h2
      simp [dget, dset, hne]
    · by_cases h3 : k'' = k'
      · subst h3
        simp [dget, dset, h2]
      · simp [dget, dset, h2, h3, ih]

theorem dset_of_dget_none {d : Dict} {k : String} (v : String) (h : dget d k = none) :
    dset d k v = d ++ [(k, v)] := by
  induction d with
  | nil => simp [dset]
  | cons e rest ih =>
    obtain ⟨k', v'⟩ := e
    simp only [dget] at h
    by_cases h2 : k' = k
    · simp [h2] at h
    · simp only [dset, if_neg h2, List.cons_append, List.cons.injEq, true_and]
      exact ih (by simpa [h2] using h)

theorem dget_eq_none_iff {d : Dict} {k : String} :
    dget d k = none ↔ k ∉ d.map Prod.fst := by
  induction d with
  | nil => simp [dget]
  | cons e rest ih =>
    obtain ⟨k', v'⟩ := e
    by_cases h : k' = k
    · subst h
      simp [dget]
    · simp [dget, h, ih, Ne.symm h]

theorem mem_of_dget_eq_some {d : Dict} {k v : String} (h : dget d k = some v) : (k, v) ∈ d := by
  induction d with
  | nil => simp [dget] at h
  | cons e rest ih =>
    obtain ⟨k', v'⟩ := e
    by_cases h2 : k' = k
    · subst h2
      simp [dget] at h
      simp [h]
    · simp only [dget, if_neg h2] at h
      exact List.mem_cons_of_mem _ (ih h)

theorem dget_eq_some_of_mem {d : Dict} {k v : String}
    (hn : (d.map Prod.fst).Nodup) (h : (k, v) ∈ d) : dget d k = some v := by
  induction d with
  | nil => simp at h
  | cons e rest ih =>
    obtain ⟨k', v'⟩ := e
    simp only [List.map_cons, List.nodup_cons] at hn
    rcases List.mem_cons.mp h with h1 | h1
    · obtain ⟨rfl, rfl⟩ := Prod.mk.injEq .. ▸ h1
      simp [dget]
    · have hne : k' ≠ k := by
        rintro rfl
        exact hn.1 (List.mem_map.mpr ⟨(k', v), h1, rfl⟩)
      simp [dget, hne, ih hn.2 h1]

theorem keys_dset_of_dget_none {d : Dict} {k : String} (v : String) (h : dget d k = none) :
    (dset d k v).map Prod.fst = d.map Prod.fst ++ [k] := by
  rw [dset_of_dget_none v h]
  simp

/-! ## Basic facts about `redact` -/

/-- When `text` is already in the forward dict, `redact` returns the stored
placeholder and does not touch the state. -/
theorem redact_found (s : AegisProtector) (t : String) (c : Option String) {p : String}
    (h : dget s.mapping t = some p) : s.redact t c = (p, s) := by
  unfold AegisProtector.redact
  simp [h]

/-- When `text` is new, the forward dict gains exactly one entry, appended at
the end: `text` bound to the returned placeholder. -/
theorem redact_new_mapping (s : AegisProtector) (t : String) (c : Option String)
    (h : dget s.mapping t = none) :
    (s.redact t c).2.mapping = s.mapping ++ [(t, (s.redact t c).1)] := by
  unfold AegisProtector.redact
  simp only [h]
  exact dset_of_dget_none _ h

/-- When `text` is new, the reverse dict is the old one with the returned
placeholder bound to `text` (a dict assignment, so an existing entry for a
colliding placeholder is overwritten in place). -/
theorem redact_new_reverse (s : AegisProtector) (t : String) (c : Option String)
    (h : dget s.mapping t = none) :
    (s.redact t c).2.reverse_mapping = dset s.reverse_mapping (s.redact t c).1 t := by
  unfold AegisProtector.redact
  simp only [h]

/-- After `redact(text, c)`, the forward dict maps `text` to the returned
placeholder. -/
theorem redact_dget_self (s : AegisProtector) (t : String) (c : Option String) :
    dget (s.redact t c).2.mapping t = some (s.redact t c).1 := by
  unfold AegisProtector.redact
  cases h : dget s.mapping t with
  | some p => simp [h]
  | none => simp [h, dget_dset_self]

/-- A `redact` call never removes or rewrites a forward-dict entry. -/
theorem redact_mapping_mono (s : AegisProtector) (t : String) (c : Option String)
    {k v : String} (h : dget s.mapping k = some v) :
    dget (s.redact t c).2.mapping k = some v := by
  unfold AegisProtector.redact
  cases h2 : dget s.mapping t with
  | some p => simpa [h2]
  | none =>
    have hk : k ≠ t := by
      rintro rfl
      rw [h] at h2
      exact Option.noConfusion h2
    simpa [h2, dget_dset_ne _ _ hk]

/-- The forward dict only grows: `redact` appends entries at the end. -/
theorem redact_mapping_ext (s : AegisProtector) (t : String) (c : Option String) :
    ∃ ext, (s.redact t c).2.mapping = s.mapping ++ ext := by
  cases h : dget s.mapping t with
  | some p => exact ⟨[], by rw [redact_found s t c h]; simp⟩
  | none => exact ⟨[(t, (s.redact t c).1)], redact_new_mapping s t c h⟩

theorem runCalls_mapping_mono (calls : List (String × Option String)) :
    ∀ s : AegisProtector, ∀ {k v : String}, dget s.mapping k = some v →
      dget (runCalls s calls).mapping k = some v := by
  induction calls with
  | nil => intro s k v h; simp only [runCalls]; exact h
  | cons e rest ih =>
    intro s k v h
    exact ih _ (redact_mapping_mono s e.1 e.2 h)

theorem runCalls_mapping_ext (calls : List (String × Option String)) :
    ∀ s : AegisProtector, ∃ ext, (runCalls s calls).mapping = s.mapping ++ ext := by
  induction calls with
  | nil => intro s; exact ⟨[], by simp [runCalls]⟩
  | cons e rest ih =>
    intro s
    obtain ⟨e1, he1⟩ := redact_mapping_ext s e.1 e.2
    obtain ⟨e2, he2⟩ := ih (s.redact e.1 e.2).2
    exact ⟨e1 ++ e2, by simp [runCalls, he2, he1]⟩

/-! ## Invariants of reachable states

Even in the presence of placeholder collisions (two distinct texts whose
truncated digests coincide, so the reverse dict is overwritten), every
state reachable from a fresh instance satisfies `Inv`: reverse entries
point back to forward entries, and every forward placeholder has some
reverse entry. -/

theorem inv_mk0 : Inv AegisProtector.mk0 := by
  constructor
  · intro p t h
    simp [AegisProtector.mk0, dget] at h
  · intro t p h
    simp [AegisProtector.mk0, dget] at h

theorem dget_append (d e : Dict) (k : String) :
    dget (d ++ e) k = (dget d k).or (dget e k) := by
  induction d with
  | nil => simp [dget]
  | cons x rest ih =>
    obtain ⟨k', v'⟩ := x
    by_cases h : k' = k <;> simp [dget, h, ih]

theorem inv_redact {s : AegisProtector} (t : String) (c : Option String) (hs : Inv s) :
    Inv (s.redact t c).2 := by
  cases h : dget s.mapping t with
  | some p =>
    rw [redact_found s t c h]
    exact hs
  | none =>
    have hm := redact_new_mapping s t c h
    have hr := redact_new_reverse s t c h
    have hgt : dget (s.redact t c).2.mapping t = some (s.redact t c).1 := by
      rw [hm, dget_append, h]
      simp [dget]
    constructor
    · intro p t' hrev
      by_cases hp : p = (s.redact t c).1
      · subst hp
        rw [hr, dget_dset_self] at hrev
        have ht' : t' = t := by
          have := Option.some.inj hrev
          exact this.symm
        subst ht'
        exact hgt
      · rw [hr, dget_dset_ne _ _ hp] at hrev
        have hmem := hs.1 p t' hrev
        rw [hm, dget_append, hmem]
        simp
    · intro t' p hfwd
      by_cases ht : t' = t
      · rw [ht, hgt] at hfwd
        have hp := Option.some.inj hfwd
        rw [hr, ← hp, dget_dset_self]
        simp
      · rw [hm, dget_append] at hfwd
        have hone : dget [(t, (s.redact t c).1)] t' = none := by
          have hne : t ≠ t' := fun hc => ht hc.symm
          simp [dget, hne]
        rw [hone] at hfwd
        cases hsm : dget s.mapping t' with
        | none => rw [hsm] at hfwd; simp at hfwd
        | some q =>
          rw [hsm] at hfwd
          simp only [Option.or_some, Option.some.injEq] at hfwd
          have h2 := hs.2 t' q hsm
          rw [hfwd] at h2
          by_cases hp : p = (s.redact t c).1
          · rw [hr, hp, dget_dset_self]
            simp
          · rw [hr, dget_dset_ne _ _ hp]
            exact h2

theorem inv_runCalls (calls : List (String × Option String)) :
    ∀ s : AegisProtector, Inv s → Inv (runCalls s calls) := by
  induction calls with
  | nil => intro s hs; simpa [runCalls] using hs
  | cons e rest ih =>
    intro s hs
    exact ih _ (inv_redact e.1 e.2 hs)

/-! ## The collision-free invariant

As long as no two distinct redacted texts share a placeholder, the reverse
dict is literally the forward dict with every pair swapped. -/

theorem good_mk0 : Good AegisProtector.mk0 := by
  constructor <;> simp [AegisProtector.mk0]

theorem nodup_snd_of_runCalls {s : AegisProtector} (calls : List (String × Option String))
    (h : ((runCalls s calls).mapping.map Prod.snd).Nodup) :
    (s.mapping.map Prod.snd).Nodup := by
  obtain ⟨ext, hext⟩ := runCalls_mapping_ext calls s
  rw [hext, List.map_append] at h
  exact (List.nodup_append.mp h).1

theorem good_redact {s : AegisProtector} (t : String) (c : Option String) (hg : Good s)
    (hinj : ((s.redact t c).2.mapping.map Prod.snd).Nodup) : Good (s.redact t c).2 := by
  cases h : dget s.mapping t with
  | some p =>
    rw [redact_found s t c h]
    exact hg
  | none =>
    have hm := redact_new_mapping s t c h
    have hr := redact_new_reverse s t c h
    have hp0 : (s.redact t c).1 ∉ s.mapping.map Prod.snd := by
      rw [hm, List.map_append] at hinj
      intro hmem
      exact (List.nodup_append.mp hinj).2.2 hmem (by simp)
    have hrev0 : dget s.reverse_mapping (s.redact t c).1 = none := by
      rw [dget_eq_none_iff, hg.1, List.map_map]
      simpa using hp0
    constructor
    · rw [hr, dset_of_dget_none _ hrev0, hg.1, hm, List.map_append]
      simp
    · rw [hm, List.map_append]
      rw [List.nodup_append]
      refine ⟨hg.2, by simp, ?_⟩
      intro a ha hb
      simp at hb
      rw [hb] at ha
      exact (dget_eq_none_iff.mp h) ha

theorem runCalls_good (calls : List (String × Option String)) :
    ∀ s : AegisProtector, Good s →
      ((runCalls s calls).mapping.map Prod.snd).Nodup → Good (runCalls s calls) := by
  induction calls with
  | nil => intro s hg _; simpa [runCalls] using hg
  | cons e rest ih =>
    intro s hg hinj
    simp only [runCalls] at hinj ⊢
    refine ih _ (good_redact e.1 e.2 hg ?_) hinj
    exact nodup_snd_of_runCalls rest hinj

/-- Once `text` maps to a placeholder in the forward dict, every later
`redact` with the same arguments returns exactly that placeholder and
leaves the state alone, however often it is repeated. -/
theorem redactN_found {s : AegisProtector} {t : String} {c : Option String} {p : String}
    (h : dget s.mapping t = some p) : ∀ n, redactN s t c n = (List.replicate n p, s) := by
  intro n
  induction n with
  | zero => simp [redactN]
  | succ k ih =>
    simp only [redactN]
    rw [redact_found s t c h]
    simp [ih, List.replicate_succ]

theorem validate_of_good (s : AegisProtector) (hg : Good s)
    (hinj : (s.mapping.map Prod.snd).Nodup) : s.validate_integrity = true := by
  unfold AegisProtector.validate_integrity
  refine (Bool.and_eq_true ..).mpr ⟨(Bool.and_eq_true ..).mpr ⟨?_, ?_⟩, ?_⟩
  · rw [beq_iff_eq, hg.1, List.length_map]
  · rw [List.all_eq_true]
    intro tp htp
    rw [beq_iff_eq]
    have hmem : (tp.2, tp.1) ∈ s.reverse_mapping := by
      rw [hg.1]
      exact List.mem_map.mpr ⟨tp, htp, rfl⟩
    have hkeys : (s.reverse_mapping.map Prod.fst).Nodup := by
      rw [hg.1, List.map_map]
      simpa using hinj
    exact dget_eq_some_of_mem hkeys hmem
  · rw [List.all_eq_true]
    intro pt hpt
    rw [beq_iff_eq]
    rw [hg.1] at hpt
    obtain ⟨e, he, hpe⟩ := List.mem_map.mp hpt
    rw [← hpe]
    exact dget_eq_some_of_mem hg.2 he

/-! ## The claims -/

/-- Claim C1 is false as stated: the texts "v58213" and "v67279" share the
truncated digest cdffd75c, hence the placeholder [REDACTED_cdffd75c].
After `redact("v58213")`, the later call `redact("v67279")` rebinds the
placeholder in the reverse dict, so `unredact` on the placeholder returned
for "v58213" no longer yields "v58213". -/
theorem claim1_counterexample :
    ((((AegisProtector.mk0.redact ("v58213") none).2).redact ("v67279") none).2.unredact
        (AegisProtector.mk0.redact ("v58213") none).1).1 ≠
      Except.ok ("v58213") := by decide

/-- Claim C1 (amended): for every text `t` and optional category `c`,
`unredact` on the placeholder returned by `redact(t, c)` returns `t`,
including when `t` is empty or contains symbols or unicode, and regardless
of which other `redact` calls were made on the same fresh mapper before or
after — provided no text distinct from `t` ever received the same
placeholder (no truncated-digest collision on `t`'s placeholder). -/
theorem claim1_unredact_redact (pre post : List (String × Option String))
    (t : String) (c : Option String)
    (hinj : ∀ e ∈ (runCalls ((runCalls AegisProtector.mk0 pre).redact t c).2 post).mapping,
        e.2 = ((runCalls AegisProtector.mk0 pre).redact t c).1 → e.1 = t) :
    ((runCalls ((runCalls AegisProtector.mk0 pre).redact t c).2 post).unredact
        ((runCalls AegisProtector.mk0 pre).redact t c).1).1 = Except.ok t := by
  have hInv : Inv (runCalls ((runCalls AegisProtector.mk0 pre).redact t c).2 post) :=
    inv_runCalls post _ (inv_redact t c (inv_runCalls pre _ inv_mk0))
  have h1 : dget ((runCalls AegisProtector.mk0 pre).redact t c).2.mapping t =
      some ((runCalls AegisProtector.mk0 pre).redact t c).1 :=
    redact_dget_self _ t c
  have h2 := runCalls_mapping_mono post _ h1
  have h3 := hInv.2 t _ h2
  obtain ⟨t2, ht2⟩ := Option.isSome_iff_exists.mp h3
  have h4 := hInv.1 _ t2 ht2
  have h5 : t2 = t := hinj (t2, _) (mem_of_dget_eq_some h4) rfl
  rw [h5] at ht2
  simp [AegisProtector.unredact, ht2]

/-- Witness for the amended C1 at a concrete input: `pre = post = []`,
`t = "John Doe"`, `c = none`. -/
theorem claim1_unredact_redact_witness :
    ((runCalls ((runCalls AegisProtector.mk0 []).redact ("John Doe") none).2 []).unredact
        ((runCalls AegisProtector.mk0 []).redact ("John Doe") none).1).1 =
      Except.ok ("John Doe") :=
  claim1_unredact_redact [] [] ("John Doe") none (by decide)

/-- Claim C2 is false as stated: redacting the colliding texts "v58213" and
"v67279" (no direct index mutation) leaves the forward dict with two
entries but the reverse dict with one, so `validate_integrity()` returns
false. -/
theorem claim2_counterexample :
    (runCalls AegisProtector.mk0 [("v58213", none), ("v67279", none)]).validate_integrity =
      false := by decide

/-- Claim C2 (amended): starting from a freshly constructed mapper, after any
finite sequence of `redact` calls (arbitrary texts and categories, no
direct index mutation), `validate_integrity()` returns true — provided the
placeholders generated for distinct texts are pairwise distinct (no
truncated-digest collision); in particular the two indices then have equal
sizes. -/
theorem claim2_validate_integrity (calls : List (String × Option String))
    (hinj : ((runCalls AegisProtector.mk0 calls).mapping.map Prod.snd).Nodup) :
    (runCalls AegisProtector.mk0 calls).validate_integrity = true :=
  validate_of_good _ (runCalls_good calls AegisProtector.mk0 good_mk0 hinj) hinj

/-- Witness for the amended C2 at a concrete input: the spec's
Alice/Bob sequence. -/
theorem claim2_validate_integrity_witness :
    (runCalls AegisProtector.mk0 [("Alice", none), ("Bob", none)]).validate_integrity = true :=
  claim2_validate_integrity [("Alice", none), ("Bob", none)] (by decide)

/-- Claim C3 (confirmed): for every text `t` not yet present in the forward
index, `redact(t, c)` returns exactly `"[REDACTED_"` + (uppercase category
+ `"_"` if a category is given, else nothing) + the first 8 hex characters
of SHA-256 of `t` + `"]"` — the spec's format formula
`specPlaceholderFormat`. -/
theorem claim3_placeholder_format (s : AegisProtector) (t : String) (c : Option String)
    (h : dget s.mapping t = none) :
    (s.redact t c).1 = specPlaceholderFormat t c := by
  unfold AegisProtector.redact specPlaceholderFormat
  rw [h]
  cases c with
  | none => simp
  | some cat =>
    by_cases hc : cat = "" <;> simp [hc, String.append_assoc]

/-- Witness for C3 at a concrete input: a fresh mapper, `t = "x"`,
`c = "email"`. -/
theorem claim3_placeholder_format_witness :
    dget AegisProtector.mk0.mapping ("x") = none ∧
    (AegisProtector.mk0.redact ("x") (some ("email"))).1 =
      specPlaceholderFormat ("x") (some ("email")) :=
  ⟨by decide, claim3_placeholder_format AegisProtector.mk0 ("x") (some ("email")) (by decide)⟩

/-- Claim C4 (confirmed): for every starting state, text `t` and category
`c`, calling `redact(t, c)` `n` times in a row yields the same placeholder
on every one of the `n` calls, namely the one the first call returns. -/
theorem claim4_idempotence (s : AegisProtector) (t : String) (c : Option String) (n : Nat) :
    (redactN s t c n).1 = List.replicate n (s.redact t c).1 := by
  cases n with
  | zero => simp [redactN]
  | succ k =>
    simp only [redactN]
    rw [redactN_found (redact_dget_self s t c) k]
    simp [List.replicate_succ]

/-- Claim C5 (confirmed): once `redact(t, c1)` has been called, any later
call `redact(t, c2)` — with any category, after any other interleaved
`redact` calls — returns the placeholder stored by the first call, and the
stored placeholder for `t` is unchanged by the later call. -/
theorem claim5_first_category_wins (s : AegisProtector) (t : String) (c1 c2 : Option String)
    (mid : List (String × Option String)) :
    ((runCalls (s.redact t c1).2 mid).redact t c2).1 = (s.redact t c1).1 ∧
    dget ((runCalls (s.redact t c1).2 mid).redact t c2).2.mapping t =
      some (s.redact t c1).1 := by
  have h1 := redact_dget_self s t c1
  have h2 := runCalls_mapping_mono mid _ h1
  have h3 := redact_found (runCalls (s.redact t c1).2 mid) t c2 h2
  exact ⟨by rw [h3], by rw [h3]; exact h2⟩

/-- Claim C6 (confirmed): `unredact(p)` never mutates the mapper; it returns
the stored original text when `p` is in the reverse index, and exactly
when `p` is absent it fails with a lookup error whose message names the
offending placeholder `p`. -/
theorem claim6_unredact_lookup (s : AegisProtector) (p : String) :
    (s.unredact p).2 = s ∧
    (∀ t, dget s.reverse_mapping p = some t → (s.unredact p).1 = Except.ok t) ∧
    (dget s.reverse_mapping p = none →
      (s.unredact p).1 =
        Except.error ("Placeholder '" ++ p ++ "' not found in mapping")) := by
  refine ⟨?_, fun t ht => ?_, fun hn => ?_⟩
  · unfold AegisProtector.unredact
    cases dget s.reverse_mapping p <;> simp
  · simp [AegisProtector.unredact, ht]
  · simp [AegisProtector.unredact, hn]

/-- Witness for C6 at concrete inputs: the found case after redacting
"John Doe", and the not-found case on a fresh mapper. -/
theorem claim6_unredact_lookup_witness :
    ((AegisProtector.mk0.redact ("John Doe") none).2.unredact ("[REDACTED_6cea57c2]")).1 =
        Except.ok ("John Doe") ∧
    (AegisProtector.mk0.unredact ("[REDACTED_6cea57c2]")).1 =
        Except.error ("Placeholder '[REDACTED_6cea57c2]' not found in mapping") :=
  ⟨(claim6_unredact_lookup (AegisProtector.mk0.redact ("John Doe") none).2
        ("[REDACTED_6cea57c2]")).2.1 ("John Doe") (by decide),
   (claim6_unredact_lookup AegisProtector.mk0 ("[REDACTED_6cea57c2]")).2.2 (by decide)⟩

/-- Claim C7 (confirmed): on every dict-representable state (pairwise
distinct keys in each index, including inconsistent states built directly),
`validate_integrity()` returns true exactly when the two indices are exact
inverses: equal cardinality, every forward pair mirrored in the reverse
index, every reverse pair mirrored in the forward index.  The function is
total, so it never raises. -/
theorem claim7_validate_integrity_spec (s : AegisProtector)
    (h1 : (s.mapping.map Prod.fst).Nodup) (h2 : (s.reverse_mapping.map Prod.fst).Nodup) :
    s.validate_integrity = true ↔
      (s.mapping.length = s.reverse_mapping.length ∧
       (∀ t p, (t, p) ∈ s.mapping → (p, t) ∈ s.reverse_mapping) ∧
       (∀ p t, (p, t) ∈ s.reverse_mapping → (t, p) ∈ s.mapping)) := by
  unfold AegisProtector.validate_integrity
  rw [Bool.and_eq_true, Bool.and_eq_true, beq_iff_eq, List.all_eq_true, List.all_eq_true]
  constructor
  · rintro ⟨⟨hlen, hf⟩, hr⟩
    refine ⟨hlen, fun t p htp => ?_, fun p t hpt => ?_⟩
    · have hx := hf (t, p) htp
      rw [beq_iff_eq] at hx
      exact mem_of_dget_eq_some hx
    · have hx := hr (p, t) hpt
      rw [beq_iff_eq] at hx
      exact mem_of_dget_eq_some hx
  · rintro ⟨hlen, hf, hr⟩
    refine ⟨⟨hlen, fun tp htp => ?_⟩, fun pt hpt => ?_⟩
    · rw [beq_iff_eq]
      exact dget_eq_some_of_mem h2 (hf tp.1 tp.2 htp)
    · rw [beq_iff_eq]
      exact dget_eq_some_of_mem h1 (hr pt.1 pt.2 hpt)

/-- Witness for C7 at a concrete input: the reverse-to-forward direction of
the equivalence on the one-entry state reached by redacting "x". -/
theorem claim7_validate_integrity_spec_witness :
    (("x"), ("[REDACTED_2d711642]")) ∈ (AegisProtector.mk0.redact ("x") none).2.mapping :=
  ((claim7_validate_integrity_spec (AegisProtector.mk0.redact ("x") none).2
      (by decide) (by decide)).mp (by decide)).2.2
    ("[REDACTED_2d711642]") ("x") (by decide)

/-- Claim C8 is false as stated: before the colliding call, the reverse
index holds the pair ([REDACTED_cdffd75c] → "v58213"); after
`redact("v67279")` — a redact call on the same mapper — that pair is gone,
its value overwritten by "v67279". -/
theorem claim8_counterexample :
    dget (AegisProtector.mk0.redact ("v58213") none).2.reverse_mapping
        ("[REDACTED_cdffd75c]") = some ("v58213") ∧
    dget ((AegisProtector.mk0.redact ("v58213") none).2.redact ("v67279") none).2.reverse_mapping
        ("[REDACTED_cdffd75c]") = some ("v67279") ∧
    (("v58213") : String) ≠ ("v67279") := by decide

/-- Claim C8 (amended): entries are created only by `redact` on first
encounter; every forward-index pair present before a `redact` call is
still present with the same value after it, and every reverse-index pair
is too, provided the call's returned placeholder differs from that pair's
key (the only exception being a truncated-digest collision, which rebinds
exactly that reverse entry). -/
theorem claim8_entry_persistence (s : AegisProtector) (t : String) (c : Option String)
    (k v : String) :
    (dget s.mapping k = some v → dget (s.redact t c).2.mapping k = some v) ∧
    ((s.redact t c).1 ≠ k → dget s.reverse_mapping k = some v →
      dget (s.redact t c).2.reverse_mapping k = some v) := by
  refine ⟨redact_mapping_mono s t c, fun hne hk => ?_⟩
  cases h : dget s.mapping t with
  | some p =>
    rw [redact_found s t c h]
    exact hk
  | none =>
    rw [redact_new_reverse s t c h, dget_dset_ne _ _ (Ne.symm hne)]
    exact hk

/-- Witness for the amended C8 at concrete inputs: both the Alice entry in
the forward index and its reverse entry survive a later redact of Bob. -/
theorem claim8_entry_persistence_witness :
    dget ((AegisProtector.mk0.redact ("Alice") none).2.redact ("Bob") none).2.mapping
        ("Alice") = some ("[REDACTED_3bc51062]") ∧
    dget ((AegisProtector.mk0.redact ("Alice") none).2.redact ("Bob") none).2.reverse_mapping
        ("[REDACTED_3bc51062]") = some ("Alice") :=
  ⟨(claim8_entry_persistence (AegisProtector.mk0.redact ("Alice") none).2 ("Bob") none
      ("Alice") ("[REDACTED_3bc51062]")).1 (by decide),
   (claim8_entry_persistence (AegisProtector.mk0.redact ("Alice") none).2 ("Bob") none
      ("[REDACTED_3bc51062]") ("Alice")).2 (by decide) (by decide)⟩

/-- Claim C9 (confirmed): an empty-string category argument behaves exactly
as an absent one — `redact(t, "")` equals `redact(t, None)` as a whole,
and on a first encounter it produces the no-category placeholder format
`"[REDACTED_<8-hex-digest>]"`. -/
theorem claim9_empty_category (s : AegisProtector) (t : String) :
    s.redact t (some ("")) = s.redact t none ∧
    (dget s.mapping t = none →
      (s.redact t (some (""))).1 = "[REDACTED_" ++ textHash t ++ "]") := by
  constructor
  · unfold AegisProtector.redact
    cases h : dget s.mapping t <;> simp [h]
  · intro h
    unfold AegisProtector.redact
    rw [h]
    simp

/-- Witness for C9 at a concrete input: a fresh mapper and "John Doe". -/
theorem claim9_empty_category_witness :
    (AegisProtector.mk0.redact ("John Doe") (some (""))).1 = "[REDACTED_6cea57c2]" :=
  ((claim9_empty_category AegisProtector.mk0 ("John Doe")).2 (by decide)).trans (by decide)

/-- Claim C10 (confirmed): when `t` is already in the forward index with
placeholder `p`, `redact(t, c)` returns `p` and leaves the whole mapper
state — both indices — exactly as it was. -/
theorem claim10_found_no_mutation (s : AegisProtector) (t : String) (c : Option String)
    (p : String) (h : dget s.mapping t = some p) : s.redact t c = (p, s) :=
  redact_found s t c h

/-- Witness for C10 at a concrete input: redacting "Alice" again with a
different category returns the stored placeholder and the unchanged state. -/
theorem claim10_found_no_mutation_witness :
    (AegisProtector.mk0.redact ("Alice") none).2.redact ("Alice") (some ("name")) =
      ("[REDACTED_3bc51062]", (AegisProtector.mk0.redact ("Alice") none).2) :=
  claim10_found_no_mutation (AegisProtector.mk0.redact ("Alice") none).2 ("Alice")
    (some ("name")) ("[REDACTED_3bc51062]") (by decide)

end Aegis
